import Mathlib

/-!
Shallow embedding of `estrings.hpp` (the estring library): a compact string
header (packed disposal-flag/length word, cached 32-bit hash, inline
NUL-terminated bytes) together with the view handle `EstrPtr`, the owning
handle `EstrUniquePtr`, and the construction paths (compile-time
`EstrRawData` layout and runtime `estr_new`).

Bytes are modelled as `Nat` values (a memory byte holds a value `< 256`);
`uint32_t` arithmetic is `Nat` arithmetic reduced `% 2^32` exactly where the
C++ computation wraps.  Heap addresses are modelled by a `Nat` tag carried
with each header, handed out by a monotone allocation counter, so that
distinct allocations can be told apart; the null pointer held by a
moved-from `EstrUniquePtr` is `Option.none`.
-/

/-- Loop body of `ascii_string_hash` (estrings.hpp:14-25).  The C++ loop
scans the buffer until the first NUL byte, accumulating
`hash += temp * (uint8_t)*string; temp *= 127` in wrapping `uint32_t`
arithmetic.  `cs` is the buffer content, `hash` and `temp` the two
accumulators. -/
def ascii_string_hash_go : List Nat → Nat → Nat → Nat
  | [], hash, _ => hash
  | c :: rest, hash, temp =>
    if c = 0 then hash
    else ascii_string_hash_go rest ((hash + temp * (c % 256)) % 2 ^ 32) ((temp * 127) % 2 ^ 32)

/-- `ascii_string_hash` (estrings.hpp:14-25): polynomial hash with q = 127
over the bytes of a NUL-terminated buffer, stopping at the first NUL. -/
def ascii_string_hash (cs : List Nat) : Nat :=
  ascii_string_hash_go cs 0 1

/-- The spec's hash formula, transcribed from its words: the polynomial hash
`Σ bytes[i] * 127^i mod 2^32` taken over ALL bytes of the list (spec §4.1,
used by claims that quantify over all `length` bytes of the content). -/
def polynomial_hash (bytes : List Nat) : Nat :=
  ((bytes.enum.map fun p => (p.2 % 256) * 127 ^ p.1).sum) % 2 ^ 32

/-- Horner form of the unreduced polynomial accumulator; proof-internal
bridge between the iterative loop and the spec's Σ formula. -/
def polyAcc : List Nat → Nat
  | [] => 0
  | c :: rest => c % 256 + 127 * polyAcc rest

lemma enumFrom_sum_eq_polyAcc (bytes : List Nat) :
    ∀ n : Nat, ((List.enumFrom n bytes).map fun p => (p.2 % 256) * 127 ^ p.1).sum
      = 127 ^ n * polyAcc bytes := by
  induction bytes with
  | nil => intro n; simp [polyAcc]
  | cons c rest ih =>
    intro n
    simp only [List.enumFrom, List.map_cons, List.sum_cons, ih (n + 1), polyAcc]
    ring

lemma polynomial_hash_eq_polyAcc (bytes : List Nat) :
    polynomial_hash bytes = polyAcc bytes % 2 ^ 32 := by
  have h := enumFrom_sum_eq_polyAcc bytes 0
  simp only [pow_zero, one_mul] at h
  simp [polynomial_hash, List.enum, h]

lemma ascii_string_hash_go_spec (cs : List Nat) :
    ∀ hash temp : Nat, hash < 2 ^ 32 →
      ascii_string_hash_go cs hash temp
        = (hash + temp * polyAcc (cs.takeWhile fun c => c ≠ 0)) % 2 ^ 32 := by
  induction cs with
  | nil =>
    intro hash temp hh
    simp only [ascii_string_hash_go, List.takeWhile_nil, polyAcc, Nat.mul_zero, Nat.add_zero]
    omega
  | cons c rest ih =>
    intro hash temp hh
    by_cases hc : c = 0
    · subst hc
      rw [ascii_string_hash_go, if_pos rfl]
      simp only [List.takeWhile_cons, decide_not, decide_True, Bool.not_true,
        Bool.false_eq_true, if_false, polyAcc, Nat.mul_zero, Nat.add_zero]
      omega
    · have hcb : (decide (c ≠ 0)) = true := by simp [hc]
      rw [ascii_string_hash_go, if_neg hc, ih _ _ (Nat.mod_lt _ (by norm_num)),
        List.takeWhile_cons]
      rw [hcb, if_pos rfl, polyAcc]
      generalize polyAcc (List.takeWhile (fun c => decide (c ≠ 0)) rest) = P
      have h3 : ((hash + temp * (c % 256)) % 2 ^ 32 + (temp * 127) % 2 ^ 32 * P) % 2 ^ 32
          = (hash + temp * (c % 256) + temp * 127 * P) % 2 ^ 32 :=
        Nat.ModEq.add (Nat.mod_modEq (hash + temp * (c % 256)) (2 ^ 32))
          (Nat.ModEq.mul_right P (Nat.mod_modEq (temp * 127) (2 ^ 32)))
      rw [h3]
      congr 1
      ring

/-- The hash the code stores is the spec's polynomial hash of the prefix of
the buffer that precedes the first NUL byte. -/
lemma ascii_string_hash_eq_polynomial_hash_takeWhile (cs : List Nat) :
    ascii_string_hash cs = polynomial_hash (cs.takeWhile fun c => c ≠ 0) := by
  rw [ascii_string_hash, ascii_string_hash_go_spec cs 0 1 (by norm_num),
    polynomial_hash_eq_polyAcc]
  ring_nf

/-! ## Header layout (`EstrRawData`, estrings.hpp:29-43)

The C++ header packs `uint32_t needs_disposing : 1; uint32_t length : 31;`
into one 32-bit word (Itanium ABI: the first-declared bit-field occupies the
least significant bit), followed by the `uint32_t hash` and the inline
`char` array.  The packed word is modelled as a `Nat` kept `< 2^32`; bit 0
is the disposal flag and bits 1..31 the length. -/

/-- Pack the two bit-fields into the 32-bit word: bit 0 the flag, bits
1..31 the length (stored modulo `2^31`, as a 31-bit bit-field does). -/
def packFields (nd : Bool) (len : Nat) : Nat :=
  (cond nd 1 0) + 2 * (len % 2 ^ 31)

/-- Bit-field store `needs_disposing = b`: replaces bit 0, leaves the 31
length bits untouched. -/
def setNeedsDisposing (w : Nat) (b : Bool) : Nat :=
  (cond b 1 0) + 2 * (w / 2)

/-- Bit-field store `length = n`: replaces bits 1..31 with `n % 2^31`,
leaves the flag bit untouched. -/
def setLength (w : Nat) (n : Nat) : Nat :=
  w % 2 + 2 * (n % 2 ^ 31)

/-- `EstrRawData` (estrings.hpp:29-43): the allocated string header.
`ndLen` is the packed flag/length word, `hash` the cached `uint32_t` hash,
`chars` the inline byte buffer (always ending in a NUL terminator in every
constructed header; estr_new may over-allocate, but bytes past the
terminator are never read by any operation). -/
structure EstrRawData where
  ndLen : Nat
  hash : Nat
  chars : List Nat
deriving Repr, DecidableEq

/-- Read of the 1-bit `needs_disposing` bit-field. -/
def EstrRawData.needs_disposing (r : EstrRawData) : Bool :=
  r.ndLen % 2 = 1

/-- Read of the 31-bit `length` bit-field. -/
def EstrRawData.length (r : EstrRawData) : Nat :=
  r.ndLen / 2 % 2 ^ 31

/-- The `consteval EstrRawData()` constructor (estrings.hpp:38-40) as laid
out for the compile-time path: template arguments `Chars...` are the
literal's characters with the trailing NUL, the default member
initializers give `needs_disposing = false` and
`length = sizeof...(Chars) - 1`, and `hash = ascii_string_hash(chars)`. -/
def EstrRawData.mk_static (charsWithNul : List Nat) : EstrRawData :=
  { ndLen := packFields false (charsWithNul.length - 1)
    hash := ascii_string_hash charsWithNul
    chars := charsWithNul }

/-! ## View handle (`EstrPtr`, estrings.hpp:47-85)

`EstrPtr` holds one pointer `EstrRawData* _raw_data`.  A valid (non-null)
pointer is modelled as the address tag (for telling allocations apart)
paired with the pointee; the null pointer — which arises in a moved-from
`EstrUniquePtr` — is modelled as `Option.none` where it occurs. -/

structure EstrPtr where
  addr : Nat
  _raw_data : EstrRawData
deriving Repr, DecidableEq

/-- `EstrPtr::size()`: reads `_raw_data->length`. -/
def EstrPtr.size (p : EstrPtr) : Nat :=
  p._raw_data.length

/-- `EstrPtr::data()`: the inline byte buffer `_raw_data->chars`. -/
def EstrPtr.data (p : EstrPtr) : List Nat :=
  p._raw_data.chars

/-- `EstrPtr::needs_disposing()`: reads `_raw_data->needs_disposing`. -/
def EstrPtr.needs_disposing (p : EstrPtr) : Bool :=
  p._raw_data.needs_disposing

/-- `EstrPtr::hash()`: reads the cached `_raw_data->hash`. -/
def EstrPtr.hash (p : EstrPtr) : Nat :=
  p._raw_data.hash

/-- `EstrPtr::view()`: `std::string_view{data(), size()}` — the first
`size()` bytes of the buffer. -/
def EstrPtr.view (p : EstrPtr) : List Nat :=
  p.data.take p.size

/-- Observable effect of `EstrPtr::destroy()` (estrings.hpp:72-75). -/
inductive DestroyEffect where
  /-- `needs_disposing()` dereferenced a null `_raw_data` (undefined
  behavior in the C++ source). -/
  | nullDeref
  /-- `delete[]` released the header's memory. -/
  | deallocated
  /-- the conditional was not taken; no deallocation, no fault. -/
  | noop
deriving Repr, DecidableEq

/-- `EstrPtr::destroy()` (estrings.hpp:72-75): reads
`_raw_data->needs_disposing` through the held pointer — a null dereference
when the pointer is null — and runs `delete[]` exactly when the flag is
set. -/
def EstrPtr.destroy : Option EstrPtr → DestroyEffect
  | none => DestroyEffect.nullDeref
  | some p => if p.needs_disposing then DestroyEffect.deallocated else DestroyEffect.noop

/-- `!memcmp(p, q, n)` on byte buffers: true iff the first `n` bytes agree. -/
def memcmp_eq (p q : List Nat) (n : Nat) : Bool :=
  decide (p.take n = q.take n)

/-- `operator==(const EstrPtr&, const EstrPtr&)` (estrings.hpp:138-144):
length check, then cached-hash check, then `!memcmp(a.data(), b.data(),
a.size())`. -/
def estrEq (a b : EstrPtr) : Bool :=
  if a.size ≠ b.size then false
  else if a.hash ≠ b.hash then false
  else memcmp_eq a.data b.data a.size

/-- Instrumented `operator==`: same staging, second component counts how
many bytes `memcmp` inspects (0 when a short-circuit stage decided). -/
def estrEqCount (a b : EstrPtr) : Bool × Nat :=
  if a.size ≠ b.size then (false, 0)
  else if a.hash ≠ b.hash then (false, 0)
  else (memcmp_eq a.data b.data a.size, a.size)

/-- `std::hash<EstrPtr>::operator()` (estrings.hpp:122-127): returns
`string.hash()` (the `uint32_t` value, zero-extended to `size_t`). -/
def hashForMap (p : EstrPtr) : Nat :=
  p.hash

/-! ## Owning handle (`EstrUniquePtr`, estrings.hpp:91-116) -/

/-- `EstrUniquePtr` (estrings.hpp:91-116): inherits `EstrPtr`'s single
`_raw_data` pointer, which the move constructor sets to null in the source;
`none` models that null pointer. -/
structure EstrUniquePtr where
  _raw_data : Option EstrPtr
deriving Repr, DecidableEq

/-- The move constructor `EstrUniquePtr(EstrUniquePtr&&)`
(estrings.hpp:94-97): returns (destination, source-after-move); the
destination takes the pointer, the source is nulled. -/
def EstrUniquePtr.moveCtor (old : EstrUniquePtr) : EstrUniquePtr × EstrUniquePtr :=
  (⟨old._raw_data⟩, ⟨none⟩)

/-- `EstrUniquePtr::get()` (estrings.hpp:99-101): an `EstrPtr` over the
same `_raw_data` pointer (possibly null). -/
def EstrUniquePtr.get (u : EstrUniquePtr) : Option EstrPtr :=
  u._raw_data

/-- `~EstrUniquePtr()` (estrings.hpp:107-109): `get().destroy()` — no null
check anywhere on the path. -/
def EstrUniquePtr.dtor (u : EstrUniquePtr) : DestroyEffect :=
  EstrPtr.destroy u.get

/-- `EstrUniquePtr::claim(EstrPtr)` (estrings.hpp:111-115): wraps the
view's pointer in an owning handle without copying. -/
def EstrUniquePtr.claim (p : EstrPtr) : EstrUniquePtr :=
  ⟨some p⟩

/-! ## Construction paths (estrings.hpp:153-229) -/

/-- `offsetof(EstrRawData<'\0'>, chars)` on the Itanium ABI: 4 bytes of
packed bit-fields + 4 bytes of `hash`. -/
def chars_offset : Nat := 8

/-- `sizeof(EstrRawData<'\0'>)`: 8 fixed bytes + 1 `char`, padded to the
4-byte alignment. -/
def estr_raw_data_size : Nat := 12

/-- Byte count requested by `new char[...]` in `estr_new`
(estrings.hpp:214): `max(sizeof(EstrRawData<'\0'>), offsetof(chars) +
string.size() + 1)`. -/
def estr_new_alloc_size (n : Nat) : Nat :=
  max estr_raw_data_size (chars_offset + n + 1)

/-- `estr_new` (estrings.hpp:213-224): allocate, placement-construct via
`EstrRawData(int)` (default member initializers: flag `false`, length `0`),
then the bit-field stores `needs_disposing = true` and
`length = string.size()`, the `memcpy` of the content, the NUL store at
index `string.size()`, and `hash = ascii_string_hash(ptr->chars)` over the
copied buffer.  `fresh` is the address handed out by the allocator. -/
def estr_new (s : List Nat) (fresh : Nat) : EstrPtr :=
  { addr := fresh
    _raw_data :=
      { ndLen := setLength (setNeedsDisposing (packFields false 0) true) s.length
        hash := ascii_string_hash (s ++ [0])
        chars := s ++ [0] } }

/-- `estr_unique_new` (estrings.hpp:226-229): `claim(estr_new(string))`. -/
def estr_unique_new (s : List Nat) (fresh : Nat) : EstrUniquePtr :=
  EstrUniquePtr.claim (estr_new s fresh)

/-- `EstrUniquePtr::clone()` (estrings.hpp:103-105):
`estr_unique_new(view())`; `view()` dereferences the held pointer, so a
null handle has no defined result. -/
def EstrUniquePtr.clone (u : EstrUniquePtr) (fresh : Nat) : Option EstrUniquePtr :=
  match u._raw_data with
  | none => none
  | some p => some (estr_unique_new p.view fresh)

/-- The static path (estrings.hpp:153-208): `EstrUniqueStorage<Chars...,
'\0'>::data` is an `EstrRawData` laid out by the `consteval` constructor
over the literal's content `s` with the appended terminator, and the
`_estr` literal / `ESTR` macro wraps its address in an `EstrPtr`.  `addr`
is the (static-storage) address of that unique instantiation. -/
def estr_static (s : List Nat) (addr : Nat) : EstrPtr :=
  { addr := addr, _raw_data := EstrRawData.mk_static (s ++ [0]) }

/-! ## Shape of constructed headers -/

lemma estr_new_size (s : List Nat) (fresh : Nat) :
    (estr_new s fresh).size = s.length % 2 ^ 31 := by
  simp only [estr_new, EstrPtr.size, EstrRawData.length, setLength, setNeedsDisposing,
    packFields, cond_true, cond_false]
  omega

lemma estr_new_size_of_lt (s : List Nat) (fresh : Nat) (h : s.length < 2 ^ 31) :
    (estr_new s fresh).size = s.length := by
  rw [estr_new_size, Nat.mod_eq_of_lt h]

lemma estr_new_needs_disposing (s : List Nat) (fresh : Nat) :
    (estr_new s fresh).needs_disposing = true := by
  simp only [estr_new, EstrPtr.needs_disposing, EstrRawData.needs_disposing, setLength,
    setNeedsDisposing, packFields, cond_true, cond_false]
  simp only [decide_eq_true_eq]
  omega

lemma estr_new_data (s : List Nat) (fresh : Nat) :
    (estr_new s fresh).data = s ++ [0] := rfl

lemma estr_new_hash (s : List Nat) (fresh : Nat) :
    (estr_new s fresh).hash = ascii_string_hash (s ++ [0]) := rfl

lemma estr_static_size (s : List Nat) (addr : Nat) :
    (estr_static s addr).size = s.length % 2 ^ 31 := by
  simp only [estr_static, EstrPtr.size, EstrRawData.length, EstrRawData.mk_static,
    packFields, List.length_append, List.length_cons, List.length_nil, cond_true,
    cond_false, Nat.add_zero, Nat.add_sub_cancel]
  omega

lemma estr_static_needs_disposing (s : List Nat) (addr : Nat) :
    (estr_static s addr).needs_disposing = false := by
  simp only [estr_static, EstrPtr.needs_disposing, EstrRawData.needs_disposing,
    EstrRawData.mk_static, packFields, cond_true, cond_false]
  simp only [decide_eq_false_iff_not]
  omega

lemma estr_static_data (s : List Nat) (addr : Nat) :
    (estr_static s addr).data = s ++ [0] := rfl

lemma estr_static_hash (s : List Nat) (addr : Nat) :
    (estr_static s addr).hash = ascii_string_hash (s ++ [0]) := rfl

lemma takeWhile_append_nul (s : List Nat) :
    (s ++ [0]).takeWhile (fun c => c ≠ 0) = s.takeWhile (fun c => c ≠ 0) := by
  induction s with
  | nil => simp [List.takeWhile_cons]
  | cons c rest ih =>
    by_cases hc : c = 0
    · subst hc; simp [List.takeWhile_cons]
    · simp only [List.cons_append, List.takeWhile_cons, ih]

lemma take_length_append_nul (s : List Nat) :
    (s ++ [0]).take s.length = s := by
  rw [List.take_append_of_le_length (Nat.le_refl _), List.take_length]

lemma estr_new_view (s : List Nat) (fresh : Nat) (h : s.length < 2 ^ 31) :
    (estr_new s fresh).view = s := by
  rw [EstrPtr.view, estr_new_data, estr_new_size_of_lt s fresh h, take_length_append_nul]

lemma estr_static_view (s : List Nat) (addr : Nat) (h : s.length < 2 ^ 31) :
    (estr_static s addr).view = s := by
  rw [EstrPtr.view, estr_static_data, estr_static_size, Nat.mod_eq_of_lt h,
    take_length_append_nul]

/-- Master characterization of `operator==`: a header whose observable
fields are those produced from content `s1` (by either construction path)
compares equal to one produced from `s2` exactly when `s1 = s2`. -/
lemma estrEq_spec (a b : EstrPtr) (s1 s2 : List Nat)
    (ha1 : a.size = s1.length) (ha2 : a.data = s1 ++ [0])
    (ha3 : a.hash = ascii_string_hash (s1 ++ [0]))
    (hb1 : b.size = s2.length) (hb2 : b.data = s2 ++ [0])
    (hb3 : b.hash = ascii_string_hash (s2 ++ [0])) :
    estrEq a b = decide (s1 = s2) := by
  rw [estrEq]
  by_cases hlen : a.size = b.size
  · rw [if_neg (by simp [hlen])]
    by_cases hhash : a.hash = b.hash
    · rw [if_neg (by simp [hhash]), memcmp_eq, ha2, hb2, ha1]
      have hl : s1.length = s2.length := by rw [← ha1, ← hb1, hlen]
      rw [take_length_append_nul, hl, take_length_append_nul]
    · rw [if_pos (by simp [hhash])]
      have hne : s1 ≠ s2 := by
        intro he
        exact hhash (by rw [ha3, hb3, he])
      simp [hne]
  · rw [if_pos (by simp [hlen])]
    have hne : s1 ≠ s2 := by
      intro he
      exact hlen (by rw [ha1, hb1, he])
    simp [hne]

lemma estr_static_size_of_lt (s : List Nat) (addr : Nat) (h : s.length < 2 ^ 31) :
    (estr_static s addr).size = s.length := by
  rw [estr_static_size, Nat.mod_eq_of_lt h]

/-! ## Claims -/

/-- Claim C1 (amended): the stored hash field of every header — static path
or `estr_new` — equals the spec's polynomial hash taken over the bytes of
the content that precede its first NUL byte; when the content contains no
NUL byte this is the polynomial hash over all `length` bytes.  (The claim's
original form, hashing over all `length` bytes even across embedded NULs,
is refuted by `C1_counterexample`: `ascii_string_hash` stops at the first
NUL.)  Headers are values here; no operation in the embedding mutates
them. -/
theorem C1_hash_invariant (s : List Nat) (fresh addr : Nat) :
    (estr_new s fresh).hash = polynomial_hash (s.takeWhile fun c => c ≠ 0) ∧
    (estr_static s addr).hash = polynomial_hash (s.takeWhile fun c => c ≠ 0) ∧
    ((∀ c ∈ s, c ≠ 0) →
      (estr_new s fresh).hash = polynomial_hash s ∧
      (estr_static s addr).hash = polynomial_hash s) := by
  have key : ascii_string_hash (s ++ [0]) = polynomial_hash (s.takeWhile fun c => c ≠ 0) := by
    rw [ascii_string_hash_eq_polynomial_hash_takeWhile, takeWhile_append_nul]
  refine ⟨key, key, fun hnz => ?_⟩
  have hself : s.takeWhile (fun c => c ≠ 0) = s := by
    rw [List.takeWhile_eq_self_iff]
    simpa using hnz
  rw [estr_new_hash, estr_static_hash, key, hself]
  exact ⟨rfl, rfl⟩

/-- Claim C1, counterexample to the original wording: the content
`[0, 97]` (a NUL byte followed by an `a`) gives a header of length 2 whose
stored hash is `ascii_string_hash`'s 0, not the polynomial hash
`0 * 127^0 + 97 * 127^1 = 12319` over all 2 content bytes. -/
theorem C1_counterexample :
    (estr_new [0, 97] 0).size = 2 ∧
    (estr_new [0, 97] 0).hash ≠ polynomial_hash [0, 97] := by
  exact ⟨by decide, by decide⟩

/-- Claim C1, witness for the amended statement's hypothesis: on NUL-free
content (here "hello") the stored hash is the polynomial hash over all
bytes. -/
theorem C1_witness :
    (∀ c ∈ [104, 101, 108, 108, 111], c ≠ (0 : Nat)) ∧
    (estr_new [104, 101, 108, 108, 111] 0).hash
      = polynomial_hash [104, 101, 108, 108, 111] :=
  ⟨by decide, ((C1_hash_invariant [104, 101, 108, 108, 111] 0 0).2.2 (by decide)).1⟩

/-- Claim C2 (code bug): the move constructor does null the source and the
destination holds exactly the pre-move pointer (so all reads through it
agree with the original), but destroying the moved-from source is NOT a
no-op: `~EstrUniquePtr` runs `get().destroy()`, whose `needs_disposing()`
reads `_raw_data->needs_disposing` through the nulled pointer — a null
dereference, not the claimed header-access-free no-op. -/
theorem C2_move_source_dtor (u : EstrUniquePtr) :
    (u.moveCtor.2)._raw_data = none ∧
    (u.moveCtor.1)._raw_data = u._raw_data ∧
    (u.moveCtor.2).dtor = DestroyEffect.nullDeref :=
  ⟨rfl, rfl, rfl⟩

/-- Claim C3 (confirmed): for contents within the 31-bit length field's
range, `operator==` on views over headers from the static or the heap path
decides exactly byte-sequence equality of the contents, in all four
path combinations. -/
theorem C3_equality_correct (s1 s2 : List Nat) (f1 f2 a1 a2 : Nat)
    (h1 : s1.length < 2 ^ 31) (h2 : s2.length < 2 ^ 31) :
    estrEq (estr_new s1 f1) (estr_new s2 f2) = decide (s1 = s2) ∧
    estrEq (estr_new s1 f1) (estr_static s2 a2) = decide (s1 = s2) ∧
    estrEq (estr_static s1 a1) (estr_new s2 f2) = decide (s1 = s2) ∧
    estrEq (estr_static s1 a1) (estr_static s2 a2) = decide (s1 = s2) :=
  ⟨estrEq_spec _ _ s1 s2 (estr_new_size_of_lt s1 f1 h1) rfl rfl
      (estr_new_size_of_lt s2 f2 h2) rfl rfl,
    estrEq_spec _ _ s1 s2 (estr_new_size_of_lt s1 f1 h1) rfl rfl
      (estr_static_size_of_lt s2 a2 h2) rfl rfl,
    estrEq_spec _ _ s1 s2 (estr_static_size_of_lt s1 a1 h1) rfl rfl
      (estr_new_size_of_lt s2 f2 h2) rfl rfl,
    estrEq_spec _ _ s1 s2 (estr_static_size_of_lt s1 a1 h1) rfl rfl
      (estr_static_size_of_lt s2 a2 h2) rfl rfl⟩

/-- Claim C3, witness: a heap "a" and a static "b" compare unequal. -/
theorem C3_witness : estrEq (estr_new [97] 0) (estr_static [98] 5) = false := by
  rw [(C3_equality_correct [97] [98] 0 1 2 5 (by norm_num) (by norm_num)).2.1]
  decide

/-- Claim C4 (confirmed): the stored hash depends only on the byte content
— two `estr_new` calls on the same content store the same hash, the
compile-time `EstrRawData` layout and `estr_new` store identical hashes for
byte-identical content, and the empty string hashes to 0 (as does the
spec's polynomial formula on the empty sequence). -/
theorem C4_hash_deterministic (s : List Nat) (f1 f2 addr : Nat) :
    (estr_new s f1).hash = (estr_new s f2).hash ∧
    (estr_new s f1).hash = (estr_static s addr).hash ∧
    (estr_new ([] : List Nat) f1).hash = 0 ∧
    polynomial_hash ([] : List Nat) = 0 :=
  ⟨rfl, rfl, by rw [estr_new_hash]; decide, by decide⟩

/-- Claim C5 (confirmed): `operator==` is the three-stage short-circuit:
the instrumented comparison (which counts the bytes `memcmp` inspects)
computes the same Boolean, inspects 0 bytes whenever the lengths differ,
inspects 0 bytes whenever lengths agree but the cached hashes differ, and
otherwise returns exactly the byte comparison of the two `length`-byte
ranges. -/
theorem C5_short_circuit (a b : EstrPtr) :
    (estrEqCount a b).1 = estrEq a b ∧
    (a.size ≠ b.size → estrEqCount a b = (false, 0)) ∧
    (a.size = b.size → a.hash ≠ b.hash → estrEqCount a b = (false, 0)) ∧
    (a.size = b.size → a.hash = b.hash →
      estrEqCount a b = (memcmp_eq a.data b.data a.size, a.size)) := by
  unfold estrEq estrEqCount
  by_cases h1 : a.size = b.size <;> by_cases h2 : a.hash = b.hash <;> simp [h1, h2]

/-- Claim C5, witness: strings of different lengths are decided with zero
bytes compared. -/
theorem C5_witness : estrEqCount (estr_new [97] 0) (estr_new [98, 99] 1) = (false, 0) :=
  (C5_short_circuit (estr_new [97] 0) (estr_new [98, 99] 1)).2.1 (by decide)

/-- Claim C6 (confirmed): `destroy` deallocates exactly when the header's
`needs_disposing` flag is set, is a no-op exactly when it is clear, and in
particular claiming a static-path header (flag `false`) into an
`EstrUniquePtr` and destroying the handle performs no deallocation. -/
theorem C6_destroy_iff_owned (p : EstrPtr) (s : List Nat) (addr : Nat) :
    (EstrPtr.destroy (some p) = DestroyEffect.deallocated ↔ p.needs_disposing = true) ∧
    (EstrPtr.destroy (some p) = DestroyEffect.noop ↔ p.needs_disposing = false) ∧
    (EstrUniquePtr.claim (estr_static s addr)).dtor = DestroyEffect.noop := by
  refine ⟨?_, ?_, ?_⟩
  · rw [EstrPtr.destroy]
    by_cases hf : p.needs_disposing <;> simp [hf]
  · rw [EstrPtr.destroy]
    by_cases hf : p.needs_disposing <;> simp [hf]
  · simp [EstrUniquePtr.dtor, EstrUniquePtr.get, EstrUniquePtr.claim, EstrPtr.destroy,
      estr_static_needs_disposing]

/-- Claim C7 (confirmed): `estr_new` requests a buffer at least as large as
the fixed header fields plus `size + 1` bytes, stores the content followed
by a NUL terminator at index `size`, sets the disposal flag, stores the
content's length, and hashes the copied buffer; the concrete "hello"
consequences are in `C7_witness`. -/
theorem C7_estr_new_correct (s : List Nat) (fresh : Nat) (h : s.length < 2 ^ 31) :
    chars_offset + s.length + 1 ≤ estr_new_alloc_size s.length ∧
    (estr_new s fresh).size = s.length ∧
    (estr_new s fresh).data = s ++ [0] ∧
    (estr_new s fresh).data[s.length]? = some 0 ∧
    (estr_new s fresh).needs_disposing = true ∧
    (estr_new s fresh).view = s ∧
    (estr_new s fresh).hash = ascii_string_hash (s ++ [0]) := by
  refine ⟨Nat.le_max_right _ _, estr_new_size_of_lt s fresh h, rfl, ?_,
    estr_new_needs_disposing s fresh, estr_new_view s fresh h, rfl⟩
  rw [estr_new_data, List.getElem?_append_right (Nat.le_refl _)]
  simp

/-- Claim C7, witness: `make_owned("hello")` has length 5, bytes "hello",
and the polynomial hash of "hello". -/
theorem C7_witness :
    (estr_new [104, 101, 108, 108, 111] 0).size = 5 ∧
    (estr_new [104, 101, 108, 108, 111] 0).view = [104, 101, 108, 108, 111] ∧
    (estr_new [104, 101, 108, 108, 111] 0).hash
      = polynomial_hash [104, 101, 108, 108, 111] := by
  obtain ⟨-, h1, -, -, -, h2, -⟩ := C7_estr_new_correct [104, 101, 108, 108, 111] 0 (by norm_num)
  exact ⟨h1, h2, by decide⟩

/-- Claim C8 (confirmed): `clone` of an owning string goes through
`estr_unique_new` over the original's bytes: the clone's view equals the
original's view, its backing header sits at a freshly allocated address
distinct from the original's, and it is itself owned.  `fresh < fresh'` is
the allocator invariant: every live address is below the allocation
counter. -/
theorem C8_clone_independence (s : List Nat) (fresh fresh' : Nat) (h : fresh < fresh') :
    ∃ q : EstrPtr,
      (estr_unique_new s fresh).clone fresh' = some (EstrUniquePtr.claim q) ∧
      q.view = (estr_new s fresh).view ∧
      q.addr ≠ (estr_new s fresh).addr ∧
      q.needs_disposing = true := by
  refine ⟨estr_new (estr_new s fresh).view fresh', rfl, ?_, ?_, estr_new_needs_disposing _ _⟩
  · apply estr_new_view
    rw [EstrPtr.view, estr_new_data, estr_new_size, List.length_take]
    have hm : s.length % 2 ^ 31 < 2 ^ 31 := Nat.mod_lt _ (by norm_num)
    omega
  · show fresh' ≠ fresh
    omega

/-- Claim C8, witness at a concrete allocation state. -/
theorem C8_witness :
    ∃ q : EstrPtr,
      (estr_unique_new [97] 0).clone 1 = some (EstrUniquePtr.claim q) ∧
      q.view = (estr_new [97] 0).view ∧
      q.addr ≠ (estr_new [97] 0).addr ∧
      q.needs_disposing = true :=
  C8_clone_independence [97] 0 1 (by norm_num)

/-- Claim C9 (confirmed): `std::hash<EstrPtr>` returns the header's cached
hash, and it is consistent with `operator==`: equal views have equal map
hashes. -/
theorem C9_hash_for_map (a b : EstrPtr) (h : estrEq a b = true) :
    hashForMap a = a.hash ∧ hashForMap a = hashForMap b := by
  refine ⟨rfl, ?_⟩
  unfold estrEq at h
  split_ifs at h with h1 h2
  exact not_not.mp h2

/-- Claim C9, witness: two heap copies of "a" compare equal and get the
same map hash. -/
theorem C9_witness : hashForMap (estr_new [97] 0) = hashForMap (estr_new [97] 3) :=
  (C9_hash_for_map (estr_new [97] 0) (estr_new [97] 3) (by decide)).2

/-- Claim C10 (confirmed): the length store is a 31-bit bit-field store —
it reduces the stored value modulo `2^31` and leaves the flag bit (bit 0)
untouched — so `estr_new` records `size % 2^31`, which equals the input
size for every input of at most `2^31 - 1` bytes, and the disposal flag set
before the length store is still set afterwards. -/
theorem C10_length_packing (w n : Nat) (s : List Nat) (fresh : Nat) :
    setLength w n % 2 = w % 2 ∧
    setLength w n / 2 = n % 2 ^ 31 ∧
    (estr_new s fresh).size = s.length % 2 ^ 31 ∧
    (s.length < 2 ^ 31 → (estr_new s fresh).size = s.length) ∧
    (estr_new s fresh).needs_disposing = true := by
  refine ⟨?_, ?_, estr_new_size s fresh, estr_new_size_of_lt s fresh,
    estr_new_needs_disposing s fresh⟩
  · rw [setLength]; omega
  · rw [setLength]; omega

/-- Claim C10, witness: a 3-byte input is stored with length exactly 3. -/
theorem C10_witness : (estr_new [97, 98, 99] 0).size = 3 :=
  (C10_length_packing 0 0 [97, 98, 99] 0).2.2.2.1 (by norm_num)
